import Mathlib

/-!
# Verification of the standings / playoff-resolution engine

Shallow embedding of the standings ranking engine, tie-break policy
resolver, final-standings composer, bracket validator and two-week
championship processor of `internal/handlers/league.go` (the second,
authoritative iteration of the file, lines ~800-2728), together with
proofs about the embedded definitions.

Modelling conventions, used throughout:

* Go `int` is modelled as `Int`, Go `float64` as `ℚ` (all scores handled
  by these claims are small decimal values on which float arithmetic is
  exact); Go `string` as `String`.
* A Go `map` read with a zero default (`map[a][b]` on absent keys) is
  modelled as a total function; a possibly-`nil` map as an `Option` of it.
* `sort.Slice(xs, less)` is modelled by `goSortSlice`, the exact
  insertion sort Go runs for slices of fewer than 12 elements (bubbling
  each element left past every neighbour `y` with `less x y`).  For a
  comparator that is a strict weak order this agrees with Go's pdqsort at
  every length, because both sorts are stable up to comparator-equality
  classes only when the comparator orders them; on the inputs used below
  the two coincide, as noted at each use site.
* Iteration over a Go `map` has unspecified order.  Wherever the source
  iterates a map directly (the `patterns` map of
  `parseInstructionsToTiebreakOrder`, the totals maps of
  `processTwoWeekChampionship`), the embedding takes the iteration order
  as an explicit parameter; wherever the source iterates a deterministic
  key slice (`orderedValues`, `recordKeys`, `teamIDs`), the embedding
  follows that slice.
-/

namespace SleeperStandings

/-! ## Go library primitives -/

/-- One bubbling step of Go's `insertionSort`: `x` is appended and then
swapped left past every neighbour `y` with `less x y`.  The list argument
and result are in reversed order (head = rightmost slice element). -/
def goInsertAux {α : Type} (less : α → α → Bool) (x : α) : List α → List α
  | [] => [x]
  | y :: l => if less x y then y :: goInsertAux less x l else x :: y :: l

/-- Go's `insertionSort` on a slice, which is exactly what `sort.Slice`
executes for slices shorter than 12 elements; for a comparator that is a
strict weak order the result agrees with `sort.Slice` at every length. -/
def goSortSlice {α : Type} (less : α → α → Bool) (l : List α) : List α :=
  (l.foldl (fun racc x => goInsertAux less x racc) []).reverse

/-- First-appearance deduplication: the `orderedValues` / `recordKeys`
slices of `league.go`, which record each distinct map key once, in the
order the loop first meets it. -/
def collectKeys {α : Type} [DecidableEq α] (vals : List α) : List α :=
  vals.foldl (fun acc v => if v ∈ acc then acc else acc ++ [v]) []

/-! ## Data model (`league.go` second iteration, lines 851-910) -/

/-- `StandingEntry` restricted to the fields the embedded functions read
or write (`RosterID`, `Wins`, `Losses`, `Ties`, `PointsFor`,
`PointsAgainst`, `Rank`, `PlayoffOutcome`, `RegularSeasonRank`,
`RandomTiebreakerID`); the remaining fields (owner/team names, division,
seed, notes, cached head-to-head map) are carried by the Go struct but
never consulted by the ranking, composition or validation code. -/
structure StandingEntry where
  RosterID : Int
  Wins : Int
  Losses : Int
  Ties : Int
  PointsFor : ℚ
  PointsAgainst : ℚ
  Rank : Int
  PlayoffOutcome : String
  RegularSeasonRank : Int
  RandomTiebreakerID : String
deriving DecidableEq, Repr

/-- `PlayoffMatchup` (league.go line 887). -/
structure PlayoffMatchup where
  Week : Int
  MatchupID : Int
  Team1 : Int
  Team2 : Int
  Team1Points : ℚ
  Team2Points : ℚ
  Winner : Int
  Loser : Int
  GameType : String
deriving DecidableEq, Repr

/-- `PlayoffBracket` (league.go line 873); `PlayoffTeams` is a
`map[int]int` from roster id to seed, built by the seeding loop with
distinct keys, modelled as an association list in insertion order. -/
structure PlayoffBracket where
  QuarterfinalsWeek : Int
  SemifinalsWeek : Int
  ChampionshipWeek : Int
  ThirdPlaceWeek : Int
  HasThirdPlace : Bool
  QuarterFinals : List PlayoffMatchup
  SemiFinals : List PlayoffMatchup
  Championship : Option PlayoffMatchup
  ThirdPlace : Option PlayoffMatchup
  PlayoffTeams : List (Int × Int)
deriving DecidableEq, Repr

/-- The dynamic value stored in Go's `interface{}` by
`groupByTiebreaker`: an `int`, a `float64`, or a `string` (the random
tiebreaker id).  Equality is Go interface equality: same dynamic type and
same value. -/
inductive GoVal where
  | int (n : Int)
  | float (q : ℚ)
  | str (s : String)
deriving DecidableEq, Repr

/-! ## Standings ranking engine (league.go lines 1526-1779) -/

/-- `compareValues` (line 1722): compares two `interface{}` values,
handling only `int`/`int` and `float64`/`float64`; every other pairing
(including strings) returns 0. -/
def compareValues : GoVal → GoVal → Int
  | .int a, .int b => if a > b then 1 else if a < b then -1 else 0
  | .float a, .float b => if a > b then 1 else if a < b then -1 else 0
  | _, _ => 0

/-- The per-entry value `groupByTiebreaker` computes for a criterion
(line 1567's `switch`).  `customMetrics` is the request-level
`map[string]interface{}` keyed by `"roster_<id>"`, modelled as an
optional partial function from the roster id (the key format is injective
in the id); a `nil` map or an absent key yields the untyped `int` 0. -/
def tiebreakValue (customMetrics : Option (Int → Option GoVal))
    (tiebreaker : String) (entry : StandingEntry) : GoVal :=
  if tiebreaker = "wins" then .int entry.Wins
  else if tiebreaker = "points_for" then .float entry.PointsFor
  else if tiebreaker = "points_against" then .float (-entry.PointsAgainst)
  else if tiebreaker = "losses" then .int (-entry.Losses)
  else if tiebreaker = "custom" then
    match customMetrics with
    | some cm => match cm entry.RosterID with
      | some v => v
      | none => .int 0
    | none => .int 0
  else if tiebreaker = "random" then .str entry.RandomTiebreakerID
  else .int 0

/-- The `orderedValues` slice of `groupByTiebreaker` (line 1562) after
the `sort.Slice` call: the distinct `tiebreakValue`s in first-appearance
order, sorted descending with `compareValues`. -/
def orderedTiebreakValues (standings : List StandingEntry)
    (tiebreaker : String) (customMetrics : Option (Int → Option GoVal)) :
    List GoVal :=
  goSortSlice (fun a b => compareValues a b > 0)
    (collectKeys (standings.map (tiebreakValue customMetrics tiebreaker)))

/-- `groupByTiebreaker` (line 1562): partition the entries by their
`tiebreakValue`, one group per distinct value in first-appearance order
(the `valueGroups` map plus the `orderedValues` slice), then return the
groups by descending value.  A group's members keep their input order
(map append). -/
def groupByTiebreaker (standings : List StandingEntry) (tiebreaker : String)
    (customMetrics : Option (Int → Option GoVal)) : List (List StandingEntry) :=
  (orderedTiebreakValues standings tiebreaker customMetrics).map
    (fun v => standings.filter
      (fun e => tiebreakValue customMetrics tiebreaker e = v))

/-- `hasCompleteHeadToHeadData` (line 1747): every ordered pair of
distinct ids in the slice must have a nonzero win count in at least one
direction. -/
def hasCompleteHeadToHeadData (teamIDs : List Int)
    (headToHeadMatrix : Int → Int → Nat) : Bool :=
  teamIDs.all (fun teamA => teamIDs.all (fun teamB =>
    teamA = teamB || !(headToHeadMatrix teamA teamB = 0 &&
      headToHeadMatrix teamB teamA = 0)))

/-- The mini-league record the double loop of lines 1647-1675 computes
for `a`: scanning `teamIDs`, every `b ≠ a` adds `matrix[a][b]` wins and
`matrix[b][a]` losses. -/
def miniRecord (teamIDs : List Int) (matrix : Int → Int → Nat) (a : Int) :
    Nat × Nat :=
  teamIDs.foldl
    (fun r b => if b = a then r else (r.1 + matrix a b, r.2 + matrix b a))
    (0, 0)

/-- The `recordKeys` comparator of lines 1692-1701: more wins first, then
fewer losses.  The `"%d-%d"` key string of the source round-trips its two
non-negative components exactly, so the key is modelled as the pair. -/
def recordLess (a b : Nat × Nat) : Bool :=
  if a.1 ≠ b.1 then a.1 > b.1 else a.2 < b.2

/-- The `recordKeys` slice of `sortByHeadToHeadMiniLeague` after its
`sort.Slice` call: the distinct mini-league records of the group in
first-appearance order, sorted by wins descending then losses
ascending. -/
def orderedMiniRecords (standings : List StandingEntry)
    (matrix : Int → Int → Nat) : List (Nat × Nat) :=
  goSortSlice recordLess
    (collectKeys (standings.map
      (fun e => miniRecord (standings.map (·.RosterID)) matrix e.RosterID)))

/-- The partition `sortByHeadToHeadMiniLeague` (line 1617) produces
before recursing: a single group when the matrix is `nil` or the group's
head-to-head data is incomplete (both skip branches), otherwise the
groups of equal mini-league records in record order (wins descending,
losses ascending).  All three branches of the source then recurse into
each group at the next criterion, which `sortStandingsRecursive` below
does uniformly. -/
def headToHeadGroups (standings : List StandingEntry)
    (headToHeadMatrix : Option (Int → Int → Nat)) :
    List (List StandingEntry) :=
  match headToHeadMatrix with
  | none => [standings]
  | some matrix =>
    let teamIDs := standings.map (·.RosterID)
    if hasCompleteHeadToHeadData teamIDs matrix then
      (orderedMiniRecords standings matrix).map
        (fun k => standings.filter
          (fun e => miniRecord teamIDs matrix e.RosterID = k))
    else [standings]

/-- The recursion of `sortStandingsRecursive` (line 1536), carried by
the still-unapplied suffix of the tie-break order (the source threads the
full order plus an index `k`, which it uses only as `order[k]` and
`k+1`, so the suffix `order[k:]` is the exact recursion state): stop on a
singleton group or an exhausted policy; otherwise partition by the
current criterion (mini-league partition for `head_to_head`, scalar
partition otherwise) and recurse into every group with the rest of the
policy.  In the source the `head_to_head` case is the mutually recursive
`sortByHeadToHeadMiniLeague`, each of whose three branches recurses at
`k+1`; it is factored here into `headToHeadGroups` plus the same uniform
recursion. -/
def sortStandingsFrom (standings : List StandingEntry)
    (rest : List String) (customMetrics : Option (Int → Option GoVal))
    (headToHeadMatrix : Option (Int → Int → Nat)) : List StandingEntry :=
  match rest with
  | [] => standings
  | currentTiebreaker :: rest' =>
    if standings.length ≤ 1 then standings
    else
      let groups :=
        if currentTiebreaker = "head_to_head" then
          headToHeadGroups standings headToHeadMatrix
        else
          groupByTiebreaker standings currentTiebreaker customMetrics
      groups.flatMap (fun g =>
        sortStandingsFrom g rest' customMetrics headToHeadMatrix)

/-- `sortStandingsRecursive` (line 1536) at index `tiebreakerIndex`. -/
def sortStandingsRecursive (standings : List StandingEntry)
    (tiebreakOrder : List String) (tiebreakerIndex : Nat)
    (customMetrics : Option (Int → Option GoVal))
    (headToHeadMatrix : Option (Int → Int → Nat)) : List StandingEntry :=
  sortStandingsFrom standings (tiebreakOrder.drop tiebreakerIndex)
    customMetrics headToHeadMatrix

/-- `sortByHeadToHeadMiniLeague` (line 1617) as called from
`sortStandingsRecursive`: partition, then recurse each group at the next
criterion. -/
def sortByHeadToHeadMiniLeague (standings : List StandingEntry)
    (tiebreakOrder : List String) (tiebreakerIndex : Nat)
    (customMetrics : Option (Int → Option GoVal))
    (headToHeadMatrix : Option (Int → Int → Nat)) : List StandingEntry :=
  (headToHeadGroups standings headToHeadMatrix).flatMap (fun g =>
    sortStandingsRecursive g tiebreakOrder (tiebreakerIndex + 1)
      customMetrics headToHeadMatrix)

/-- `sortStandingsWithTiebreakers` (line 1526): copy and recurse from
criterion 0. -/
def sortStandingsWithTiebreakers (standings : List StandingEntry)
    (tiebreakOrder : List String)
    (customMetrics : Option (Int → Option GoVal))
    (headToHeadMatrix : Option (Int → Int → Nat)) : List StandingEntry :=
  sortStandingsRecursive standings tiebreakOrder 0 customMetrics
    headToHeadMatrix

/-- The rank-assignment loop of `HandleGetLeagueStandings` (line 1273):
`standings[i].Rank = i + 1`, starting from `n`. -/
def assignRanksFrom (n : Int) : List StandingEntry → List StandingEntry
  | [] => []
  | e :: t => { e with Rank := n } :: assignRanksFrom (n + 1) t

/-- Rank assignment over the whole sorted list, 1-based. -/
def assignRanks (standings : List StandingEntry) : List StandingEntry :=
  assignRanksFrom 1 standings

/-! ## Tie-break policy resolver (league.go lines 1117-1131, 1209-1213,
1499-1523, 1782-1823) -/

/-- `getTiebreakOrder` (line 1500).  The league pointer is modelled by
`Option Int`, carrying `league.Settings.PlayoffSeedType` when the league
was fetched. -/
def getTiebreakOrder (userTiebreakOrder : List String)
    (playoffSeedType : Option Int) : List String :=
  if userTiebreakOrder ≠ [] then userTiebreakOrder
  else
    match playoffSeedType with
    | some t =>
      if t = 0 then ["wins", "points_for", "points_against"]
      else if t = 1 then ["wins", "points_for"]
      else if t = 2 then ["wins", "head_to_head", "points_for", "points_against"]
      else ["wins", "points_for", "points_against"]
    | none => ["wins", "points_for", "points_against"]

/-- One atom of a Go regular expression as used by the five patterns of
`parseInstructionsToTiebreakOrder`: a literal character or `.` (any
character except newline). -/
inductive CPat where
  | lit (c : Char)
  | dot
deriving DecidableEq, Repr

/-- Does the pattern sequence match a prefix of the text? -/
def matchSeqAt : List Char → List CPat → Bool
  | _, [] => true
  | [], _ :: _ => false
  | c :: hs, p :: ps =>
    (match p with
     | .lit d => c = d
     | .dot => c ≠ '\n') && matchSeqAt hs ps

/-- Unanchored match of a pattern sequence (Go `regexp.MatchString`
semantics for these alternation-of-sequences patterns): the pattern
matches at some position of the text. -/
def matchSeqSub : List Char → List CPat → Bool
  | [], pat => matchSeqAt [] pat
  | c :: t, pat => matchSeqAt (c :: t) pat || matchSeqSub t pat

/-- `strings.Contains`. -/
def containsSub (hay pat : List Char) : Bool :=
  matchSeqSub hay (pat.map CPat.lit)

/-- A literal pattern sequence. -/
def litp (s : String) : List CPat := s.data.map CPat.lit

/-- One entry of the `patterns` map of line 1787: the alternatives of the
regular expression, and the criterion name it maps to. -/
structure TbPattern where
  alts : List (List CPat)
  name : String
deriving DecidableEq, Repr

/-- Does any alternative of the pattern match the text? -/
def matchPattern (hay : List Char) (p : TbPattern) : Bool :=
  p.alts.any (matchSeqSub hay)

/-- `"head.to.head|head-to-head|h2h" → head_to_head`. -/
def patH2H : TbPattern :=
  ⟨[litp "head" ++ [CPat.dot] ++ litp "to" ++ [CPat.dot] ++ litp "head",
    litp "head-to-head", litp "h2h"], "head_to_head"⟩

/-- `"points? for|total points|points scored" → points_for`. -/
def patPF : TbPattern :=
  ⟨[litp "point for", litp "points for", litp "total points",
    litp "points scored"], "points_for"⟩

/-- `"points? against|points allowed" → points_against`. -/
def patPA : TbPattern :=
  ⟨[litp "point against", litp "points against", litp "points allowed"],
   "points_against"⟩

/-- `"division" → division_record`. -/
def patDiv : TbPattern := ⟨[litp "division"], "division_record"⟩

/-- `"custom" → custom`. -/
def patCustom : TbPattern := ⟨[litp "custom"], "custom"⟩

/-- The five entries of the `patterns` map.  Go iterates a map in
unspecified order, so every function consuming the map takes the
iteration order as a parameter ranging over permutations of this list. -/
def allPatterns : List TbPattern := [patH2H, patPF, patPA, patDiv, patCustom]

/-- `parseInstructionsToTiebreakOrder` (line 1782).  `patOrder` is the
order in which Go's map iteration happens to visit the five patterns.
The text is lowercased; `wins` is prepended unless the text contains
`"not wins"` or `"ignore wins"`; each matching pattern's criterion is
appended if not already present; a result of length ≤ 1 is replaced by
the fallback. -/
def parseInstructionsToTiebreakOrder (patOrder : List TbPattern)
    (instructions : String) (fallback : List String) : List String :=
  let instr := instructions.data.map Char.toLower
  let base :=
    if !containsSub instr "not wins".data && !containsSub instr "ignore wins".data
    then ["wins"] else []
  let order := patOrder.foldl
    (fun ord p =>
      if matchPattern instr p then
        if p.name ∈ ord then ord else ord ++ [p.name]
      else ord)
    base
  if order.length ≤ 1 then fallback else order

/-- The policy-resolution core of `HandleGetLeagueStandings`
(lines 1117-1131 and 1209-1213): stored league configuration fills in
instructions and explicit order only where the caller supplied none, the
explicit order is resolved against the league's seed type, and a
non-empty instructions text is then parsed with that resolved order as
fallback. -/
def resolveEffectiveTiebreakOrder (patOrder : List TbPattern)
    (callerOrder : List String) (callerInstructions : String)
    (hasCustomStandings : Bool) (storedInstructions : String)
    (storedOrder : List String) (playoffSeedType : Option Int) :
    List String :=
  let instructions :=
    if hasCustomStandings ∧ callerInstructions = "" ∧ storedInstructions ≠ ""
    then storedInstructions else callerInstructions
  let tiebreakOrder :=
    if hasCustomStandings ∧ callerOrder = [] ∧ storedOrder ≠ []
    then storedOrder else callerOrder
  let effective := getTiebreakOrder tiebreakOrder playoffSeedType
  if instructions ≠ "" then
    parseInstructionsToTiebreakOrder patOrder instructions effective
  else effective

/-! ## Final standings composer (league.go lines 2098-2211) -/

/-- The `outcomePriority` map of line 2181; a Go map read returns the
zero value 0 for any key not listed (in particular for the empty
outcome). -/
def outcomePriority (outcome : String) : Int :=
  if outcome = "champion" then 1
  else if outcome = "runner_up" then 2
  else if outcome = "third_place" then 3
  else if outcome = "fourth_place" then 4
  else if outcome = "quarterfinal_loss" then 5
  else if outcome = "no_playoffs" then 6
  else 0

/-- `shouldSwapFinalStandings` (line 2179), the function the source
passes to `sort.Slice` as its `less` comparator. -/
def shouldSwapFinalStandings (a b : StandingEntry) : Bool :=
  let priorityA := outcomePriority a.PlayoffOutcome
  let priorityB := outcomePriority b.PlayoffOutcome
  if priorityA ≠ priorityB then priorityA > priorityB
  else if a.PlayoffOutcome = "quarterfinal_loss" then
    a.RegularSeasonRank > b.RegularSeasonRank
  else if a.PlayoffOutcome = "no_playoffs" then
    a.RegularSeasonRank > b.RegularSeasonRank
  else false

/-- `sortFinalStandings` (line 2172): `sort.Slice` with
`shouldSwapFinalStandings` as the `less` function.  The comparator is a
strict weak order, so `goSortSlice` agrees with Go's sort up to
comparator-equal elements; the theorems below use it on lists where no
two elements compare equal or at lengths below 12, where it is exact. -/
def sortFinalStandings (standings : List StandingEntry) :
    List StandingEntry :=
  goSortSlice shouldSwapFinalStandings standings

/-- The `standingMap` pointer update of `assignPlayoffOutcomes`: set the
outcome of the entry with the given roster id.  The pipeline's entries
have pairwise distinct roster ids (one per roster), for which updating
every match coincides with the source's last-pointer map update. -/
def setOutcome (standings : List StandingEntry) (rosterID : Int)
    (outcome : String) : List StandingEntry :=
  standings.map (fun e =>
    if e.RosterID = rosterID then { e with PlayoffOutcome := outcome } else e)

/-- Is a roster id among the bracket's seeded playoff teams? -/
def isPlayoffTeam (bracket : PlayoffBracket) (rosterID : Int) : Bool :=
  bracket.PlayoffTeams.any (fun p => p.1 = rosterID)

/-- `assignPlayoffOutcomes` (line 2123): champion/runner-up from the
championship game, third/fourth from the third-place game, then every
quarterfinal loser (the source deduplicates losers into a set first;
marking each loser in game order writes the same outcome to the same
distinct entries), then `no_playoffs` for every still-unmarked team that
is not seeded. -/
def assignPlayoffOutcomes (standings : List StandingEntry)
    (bracket : PlayoffBracket) : List StandingEntry :=
  let s1 := match bracket.Championship with
    | some c => setOutcome (setOutcome standings c.Winner "champion")
        c.Loser "runner_up"
    | none => standings
  let s2 := match bracket.ThirdPlace with
    | some t => setOutcome (setOutcome s1 t.Winner "third_place")
        t.Loser "fourth_place"
    | none => s1
  let s3 := bracket.QuarterFinals.foldl
    (fun st qf => setOutcome st qf.Loser "quarterfinal_loss") s2
  s3.map (fun e =>
    if e.PlayoffOutcome = "" && !isPlayoffTeam bracket e.RosterID then
      { e with PlayoffOutcome := "no_playoffs" }
    else e)

/-- The regular-season-rank stamping loop of `calculateFinalStandings`
(line 2103): `RegularSeasonRank = i + 1`. -/
def setRegularSeasonRanksFrom (n : Int) :
    List StandingEntry → List StandingEntry
  | [] => []
  | e :: t => { e with RegularSeasonRank := n } ::
      setRegularSeasonRanksFrom (n + 1) t

/-- `calculateFinalStandings` (line 2099): stamp regular-season ranks,
assign playoff outcomes, sort with `sortFinalStandings`, and re-number
`Rank` 1..N over the result. -/
def calculateFinalStandings (regularSeasonStandings : List StandingEntry)
    (bracket : PlayoffBracket) : List StandingEntry :=
  let stamped := setRegularSeasonRanksFrom 1 regularSeasonStandings
  let withOutcomes := assignPlayoffOutcomes stamped bracket
  assignRanksFrom 1 (sortFinalStandings withOutcomes)

/-! ## Bracket validation and the final-mode fallback (league.go lines
1242-1261, 2214-2283) -/

/-- `containsAllTeams` (line 2266): same length, and every expected team
is present in the actual list. -/
def containsAllTeams (actual expected : List Int) : Bool :=
  actual.length = expected.length && expected.all (· ∈ actual)

/-- `validatePlayoffBracket` (line 2214) on a non-nil bracket; `some msg`
is the returned error, `none` is acceptance.  The playoff-team count is
compared against the hardcoded `expectedPlayoffTeams := 6`, not against
any league setting. -/
def validatePlayoffBracket (bracket : PlayoffBracket) : Option String :=
  if bracket.PlayoffTeams.length ≠ 6 then
    some "unexpected playoff team count"
  else if bracket.QuarterFinals.length < 2 then
    some "incomplete quarterfinals"
  else if bracket.SemiFinals.length < 2 then
    some "incomplete semifinals"
  else
    match bracket.Championship with
    | none => some "championship game not found"
    | some championship =>
      if bracket.ThirdPlace = none ∧ bracket.HasThirdPlace then
        some "third place game not found"
      else if bracket.ChampionshipWeek ≠ 17 ∨ ¬bracket.HasThirdPlace then
        if containsAllTeams [championship.Team1, championship.Team2]
            (bracket.SemiFinals.map (·.Winner)) then
          none
        else some "championship participants mismatch"
      else none

/-- The cross-check of lines 2251-2259: the championship participants
are exactly the semifinal winners. -/
def champParticipantsOk (bracket : PlayoffBracket) : Bool :=
  match bracket.Championship with
  | none => false
  | some c =>
    containsAllTeams [c.Team1, c.Team2] (bracket.SemiFinals.map (·.Winner))

/-- The final-mode branch of `HandleGetLeagueStandings` (lines
1242-1261): a bracket-processing error or a validation error keeps the
regular-season standings; only a validated bracket replaces them with
`calculateFinalStandings`. -/
def finalModeStandings (regularSeasonStandings : List StandingEntry)
    (bracketResult : Except String PlayoffBracket) : List StandingEntry :=
  match bracketResult with
  | .error _ => regularSeasonStandings
  | .ok bracket =>
    match validatePlayoffBracket bracket with
    | some _ => regularSeasonStandings
    | none => calculateFinalStandings regularSeasonStandings bracket

/-! ## Two-week aggregate championship (league.go lines 2508-2628) -/

/-- One row of a weekly matchup list as consumed by
`processTwoWeekChampionship`: a roster id and its points that week. -/
structure GoMatchup where
  RosterID : Int
  Points : ℚ
deriving DecidableEq, Repr

/-- `championshipTotals[rosterID] += matchup.Points` on an association
list in insertion order. -/
def addPoints (acc : List (Int × ℚ)) (rosterID : Int) (points : ℚ) :
    List (Int × ℚ) :=
  if acc.any (fun p => p.1 = rosterID) then
    acc.map (fun p => if p.1 = rosterID then (p.1, p.2 + points) else p)
  else acc ++ [(rosterID, points)]

/-- The totals-accumulation loop of lines 2533-2547 over the week-17 and
week-18 matchups in order: semifinal winners accumulate into the
championship totals, other semifinal losers into the third-place
totals. -/
def buildTotals (semifinalWinners semifinalLosers : List Int)
    (matchups : List GoMatchup) : List (Int × ℚ) × List (Int × ℚ) :=
  matchups.foldl
    (fun acc mu =>
      if mu.RosterID ∈ semifinalWinners then
        (addPoints acc.1 mu.RosterID mu.Points, acc.2)
      else if mu.RosterID ∈ semifinalLosers then
        (acc.1, addPoints acc.2 mu.RosterID mu.Points)
      else acc)
    ([], [])

/-- The top-two selection loop of lines 2553-2563 (and 2573-2583) over
the totals map, in the order `entries` in which Go's map iteration visits
it: running champion/runner-up with their totals, initialised to roster
id 0 and total 0. -/
def champSelect (entries : List (Int × ℚ)) : (Int × ℚ) × (Int × ℚ) :=
  entries.foldl
    (fun sel e =>
      if e.2 > sel.1.2 then (e, sel.1)
      else if e.2 > sel.2.2 then (sel.1, e)
      else sel)
    ((0, 0), (0, 0))

/-- `processTwoWeekChampionship` (line 2508).  `week17`/`week18` are the
fetched matchup lists (`none` models a fetch error); `champIter` and
`thirdIter` are the orders in which Go's map iteration visits the two
totals maps, constrained to permutations of the accumulated association
lists by the theorems that use this function. -/
def processTwoWeekChampionship (bracket : PlayoffBracket)
    (week17 week18 : Option (List GoMatchup))
    (champIter thirdIter : List (Int × ℚ)) :
    Except String PlayoffBracket :=
  if bracket.SemiFinals.length < 2 then
    .error "need semifinal results to process championship"
  else
    let semifinalWinners := bracket.SemiFinals.map (·.Winner)
    let semifinalLosers := bracket.SemiFinals.map (·.Loser)
    if semifinalWinners.length ≠ 2 then
      .error "expected 2 semifinal winners"
    else if semifinalLosers.length ≠ 2 then
      .error "expected 2 semifinal losers"
    else
      match week17, week18 with
      | none, _ => .error "failed to get matchups for week 17"
      | _, none => .error "failed to get matchups for week 18"
      | some _, some _ =>
        let sel := champSelect champIter
        let champion := sel.1.1
        let championTotal := sel.1.2
        let runnerUp := sel.2.1
        let runnerUpTotal := sel.2.2
        if champion = 0 ∨ runnerUp = 0 then
          .error "could not determine championship results"
        else
          let sel3 := champSelect thirdIter
          let thirdPlace := sel3.1.1
          let thirdPlaceTotal := sel3.1.2
          let fourthPlace := sel3.2.1
          let fourthPlaceTotal := sel3.2.2
          if thirdPlace = 0 ∨ fourthPlace = 0 then
            .error "could not determine third place results"
          else
            .ok { bracket with
              Championship := some {
                Week := 17, MatchupID := 1,
                Team1 := champion, Team2 := runnerUp,
                Team1Points := championTotal, Team2Points := runnerUpTotal,
                Winner := champion, Loser := runnerUp,
                GameType := "championship" }
              ThirdPlace := some {
                Week := 17, MatchupID := 2,
                Team1 := thirdPlace, Team2 := fourthPlace,
                Team1Points := thirdPlaceTotal,
                Team2Points := fourthPlaceTotal,
                Winner := thirdPlace, Loser := fourthPlace,
                GameType := "third_place" }
              HasThirdPlace := true }

/-- The numeric "descending by value" relation between two criterion
values of the same numeric kind (`points_against` values are already
negated by `tiebreakValue`, so descending means lower raw points
against). -/
def valDesc : GoVal → GoVal → Prop
  | .int a, .int b => a > b
  | .float a, .float b => a > b
  | _, _ => False


/-- "Better mini-league record": more wins, or equal wins and fewer
losses. -/
def recordDesc (a b : Nat × Nat) : Prop :=
  a.1 > b.1 ∨ (a.1 = b.1 ∧ a.2 < b.2)

/-- Go map read with zero default, over the association lists built by
`addPoints` (first match wins; `addPoints` keeps keys unique). -/
def lookupTotal : List (Int × ℚ) → Int → ℚ
  | [], _ => 0
  | p :: t, r => if p.1 = r then p.2 else lookupTotal t r

/-! ## Concrete instances used by the claim theorems -/

/-- Team 1 (A): 8-5, 90 points for. -/
def entA3 : StandingEntry := ⟨1, 8, 5, 0, 90, 80, 0, "", 0, ""⟩
/-- Team 2 (B): 8-5, 95 points for. -/
def entB3 : StandingEntry := ⟨2, 8, 5, 0, 95, 82, 0, "", 0, ""⟩
/-- Team 3 (C): 8-5, 100 points for. -/
def entC3 : StandingEntry := ⟨3, 8, 5, 0, 100, 84, 0, "", 0, ""⟩

/-- A beat B and C once each, B beat C once; every pair has played. -/
def h2hMatrixABC : Int → Int → Nat := fun a b =>
  if a = 1 ∧ b = 2 then 1
  else if a = 1 ∧ b = 3 then 1
  else if a = 2 ∧ b = 3 then 1
  else 0

/-- A matrix with no recorded games at all: in particular teams 1 and 3
have never played. -/
def h2hMatrixEmpty : Int → Int → Nat := fun _ _ => 0

/-- Regular-season leader, roster 1, the championship-game winner. -/
def finalEntryA : StandingEntry := ⟨1, 10, 3, 0, 1500, 1200, 0, "", 0, ""⟩
/-- Roster 2, the championship-game loser. -/
def finalEntryB : StandingEntry := ⟨2, 9, 4, 0, 1400, 1250, 0, "", 0, ""⟩

/-- A bracket whose championship game roster 1 won over roster 2. -/
def finalBracketAB : PlayoffBracket :=
  { QuarterfinalsWeek := 15, SemifinalsWeek := 16, ChampionshipWeek := 17,
    ThirdPlaceWeek := 17, HasThirdPlace := false,
    QuarterFinals := [], SemiFinals := [],
    Championship := some ⟨17, 1, 1, 2, 100, 90, 1, 2, "championship"⟩,
    ThirdPlace := none, PlayoffTeams := [(1, 1), (2, 2)] }

/-- Roster 1 with random tiebreaker key "tb_a". -/
def entR1 : StandingEntry := ⟨1, 8, 5, 0, 90, 80, 0, "", 0, "tb_a"⟩
/-- Roster 2 with the lexicographically larger random key "tb_b". -/
def entR2 : StandingEntry := ⟨2, 8, 5, 0, 95, 82, 0, "", 0, "tb_b"⟩

/-- The fallback order used in the parser examples. -/
def standardOrder : List String := ["wins", "points_for", "points_against"]

/-- A quarterfinal game won by `w` over `l`. -/
def qfGame (w l : Int) : PlayoffMatchup := ⟨15, 0, w, l, 100, 90, w, l, "quarterfinal"⟩

/-- A semifinal game won by `w` over `l`. -/
def sfGame (w l : Int) : PlayoffMatchup := ⟨16, 0, w, l, 100, 90, w, l, "semifinal"⟩

/-- A six-team bracket that passes validation although it contains a
third-place game while `HasThirdPlace` is `false`: the championship
participants (1, 2) are the semifinal winners, so the traditional
cross-check passes, and nothing rejects the unexpected third-place
game. -/
def acceptedExtraThirdBracket : PlayoffBracket :=
  { QuarterfinalsWeek := 15, SemifinalsWeek := 16, ChampionshipWeek := 17,
    ThirdPlaceWeek := 17, HasThirdPlace := false,
    QuarterFinals := [qfGame 3 6, qfGame 4 5],
    SemiFinals := [sfGame 1 3, sfGame 2 4],
    Championship := some ⟨17, 1, 1, 2, 100, 90, 1, 2, "championship"⟩,
    ThirdPlace := some ⟨17, 2, 3, 4, 80, 70, 3, 4, "third_place"⟩,
    PlayoffTeams := [(1, 1), (2, 2), (3, 3), (4, 4), (5, 5), (6, 6)] }

/-- A bracket seeding only two teams: validation rejects it (the count
check is against the hardcoded 6). -/
def incompleteBracket : PlayoffBracket :=
  { acceptedExtraThirdBracket with PlayoffTeams := [(1, 1), (2, 2)] }

/-- A bracket after the semifinals of a two-week championship format:
winners 1 and 2, losers 3 and 4, championship still unresolved. -/
def twoWeekBracket : PlayoffBracket :=
  { QuarterfinalsWeek := 15, SemifinalsWeek := 16, ChampionshipWeek := 17,
    ThirdPlaceWeek := 18, HasThirdPlace := false,
    QuarterFinals := [qfGame 3 6, qfGame 4 5],
    SemiFinals := [sfGame 1 3, sfGame 2 4],
    Championship := none, ThirdPlace := none,
    PlayoffTeams := [(1, 1), (2, 2), (3, 3), (4, 4), (5, 5), (6, 6)] }

/-- Week-17 scores: team 1 scores 50, team 2 scores 55 (plus the
third-place pair). -/
def week17Matchups : List GoMatchup := [⟨1, 50⟩, ⟨2, 55⟩, ⟨3, 30⟩, ⟨4, 20⟩]

/-- Week-18 scores: team 1 scores 60, team 2 scores 40. -/
def week18Matchups : List GoMatchup := [⟨1, 60⟩, ⟨2, 40⟩, ⟨3, 25⟩, ⟨4, 10⟩]


/-! ## Permutation facts about the sorting and grouping primitives -/

theorem goInsertAux_perm {α : Type} (less : α → α → Bool) (x : α) :
    ∀ l : List α, (goInsertAux less x l).Perm (x :: l) := by
  intro l
  induction l with
  | nil => exact List.Perm.refl _
  | cons y t ih =>
    simp only [goInsertAux]
    split
    · exact (ih.cons y).trans (List.Perm.swap x y t)
    · exact List.Perm.refl _

theorem goSortFold_perm {α : Type} (less : α → α → Bool) :
    ∀ (l racc : List α),
      (l.foldl (fun racc x => goInsertAux less x racc) racc).Perm
        (l ++ racc) := by
  intro l
  induction l with
  | nil => intro racc; simp
  | cons x t ih =>
    intro racc
    simp only [List.foldl_cons, List.cons_append]
    exact (ih _).trans
      ((List.Perm.append_left t (goInsertAux_perm less x racc)).trans
        List.perm_middle)

theorem goSortSlice_perm {α : Type} (less : α → α → Bool) (l : List α) :
    (goSortSlice less l).Perm l := by
  unfold goSortSlice
  refine (List.reverse_perm _).trans ?_
  simpa using goSortFold_perm less l []

theorem collectKeys_aux_nodup {α : Type} [DecidableEq α] :
    ∀ (vals acc : List α), acc.Nodup →
      (vals.foldl (fun acc v => if v ∈ acc then acc else acc ++ [v])
        acc).Nodup := by
  intro vals
  induction vals with
  | nil => intro acc h; exact h
  | cons v t ih =>
    intro acc h
    simp only [List.foldl_cons]
    split
    · exact ih acc h
    · refine ih _ ?_
      rename_i hv
      simp [List.nodup_append, h, hv]

theorem collectKeys_nodup {α : Type} [DecidableEq α] (vals : List α) :
    (collectKeys vals).Nodup :=
  collectKeys_aux_nodup vals [] List.nodup_nil

theorem collectKeys_aux_mem {α : Type} [DecidableEq α] :
    ∀ (vals acc : List α) (x : α), x ∈ vals ∨ x ∈ acc →
      x ∈ vals.foldl (fun acc v => if v ∈ acc then acc else acc ++ [v])
        acc := by
  intro vals
  induction vals with
  | nil =>
    intro acc x h
    simpa using h.resolve_left (by simp)
  | cons v t ih =>
    intro acc x h
    simp only [List.foldl_cons]
    rcases h with h | h
    · rcases List.mem_cons.mp h with rfl | h
      · refine ih _ x (Or.inr ?_)
        split
        · assumption
        · simp
      · exact ih _ x (Or.inl h)
    · refine ih _ x (Or.inr ?_)
      split
      · exact h
      · simp [h]

theorem collectKeys_mem {α : Type} [DecidableEq α] {vals : List α} {x : α}
    (h : x ∈ vals) : x ∈ collectKeys vals :=
  collectKeys_aux_mem vals [] x (Or.inl h)

theorem map_sum_ite_zero {κ : Type} [DecidableEq κ] (c : ℕ) (k0 : κ) :
    ∀ keys : List κ, k0 ∉ keys →
      ((keys.map (fun k => if k0 = k then c else 0)).sum) = 0 := by
  intro keys
  induction keys with
  | nil => intro _; simp
  | cons k t ih =>
    intro h
    simp only [List.mem_cons, not_or] at h
    simp [h.1, ih h.2]

theorem map_sum_ite_count {κ : Type} [DecidableEq κ] (c : ℕ) (k0 : κ) :
    ∀ keys : List κ, keys.Nodup → k0 ∈ keys →
      ((keys.map (fun k => if k0 = k then c else 0)).sum) = c := by
  intro keys
  induction keys with
  | nil => intro _ h; simp at h
  | cons k t ih =>
    intro hnd hmem
    rcases List.mem_cons.mp hmem with rfl | hmem2
    · have h0 : k0 ∉ t := (List.nodup_cons.mp hnd).1
      simp [map_sum_ite_zero c k0 t h0]
    · have hk : k0 ≠ k := fun h => (List.nodup_cons.mp hnd).1 (h ▸ hmem2)
      simp [hk, ih (List.nodup_cons.mp hnd).2 hmem2]

/-- Partitioning a list by the fibers of `val` over a duplicate-free,
complete key list and concatenating the fibers is a permutation of the
list. -/
theorem join_map_filter_perm {α κ : Type} [DecidableEq α] [DecidableEq κ]
    (val : α → κ) (keys : List κ) (s : List α) (hnd : keys.Nodup)
    (hcomplete : ∀ x ∈ s, val x ∈ keys) :
    ((keys.map (fun k => s.filter (fun x => val x = k))).flatten).Perm s := by
  rw [List.perm_iff_count]
  intro a
  rw [List.count_flatten, List.map_map]
  have hterm : ∀ k : κ,
      (s.filter (fun x => val x = k)).count a =
        if val a = k then s.count a else 0 := by
    intro k
    by_cases h : val a = k
    · rw [if_pos h, List.count_filter (by simpa using h)]
    · rw [if_neg h]
      refine List.count_eq_zero.mpr ?_
      intro hmem
      exact h (by simpa using (List.mem_filter.mp hmem).2)
  by_cases hs : a ∈ s
  · have hks : val a ∈ keys := hcomplete a hs
    calc (keys.map ((List.count a) ∘ fun k =>
            s.filter (fun x => val x = k))).sum
        = (keys.map (fun k => if val a = k then s.count a else 0)).sum := by
          refine congrArg List.sum (List.map_congr_left ?_)
          intro k _
          exact hterm k
      _ = s.count a := map_sum_ite_count _ _ keys hnd hks
  · have hz : s.count a = 0 := List.count_eq_zero.mpr hs
    rw [hz]
    refine List.sum_eq_zero ?_
    intro n hn
    rcases List.mem_map.mp hn with ⟨k, _, rfl⟩
    simp only [Function.comp_apply, hterm k, hz]
    split <;> rfl

theorem flatMap_perm_flatten {α : Type} (f : List α → List α)
    (h : ∀ g : List α, (f g).Perm g) :
    ∀ gs : List (List α), (gs.flatMap f).Perm gs.flatten := by
  intro gs
  induction gs with
  | nil => exact List.Perm.refl _
  | cons g t ih =>
    simp only [List.flatMap_cons, List.flatten_cons]
    exact (h g).append ih

/-- Concatenating the groups `groupByTiebreaker` produces recovers the
input up to permutation. -/
theorem groupByTiebreaker_join_perm (standings : List StandingEntry)
    (tiebreaker : String) (customMetrics : Option (Int → Option GoVal)) :
    ((groupByTiebreaker standings tiebreaker customMetrics).flatten).Perm
      standings := by
  unfold groupByTiebreaker
  refine join_map_filter_perm _ _ _ ?_ ?_
  · exact ((goSortSlice_perm _ _).nodup_iff).mpr (collectKeys_nodup _)
  · intro x hx
    exact ((goSortSlice_perm _ _).mem_iff).mpr
      (collectKeys_mem (List.mem_map_of_mem _ hx))

/-- Concatenating the groups of the head-to-head partition recovers the
input up to permutation. -/
theorem headToHeadGroups_join_perm (standings : List StandingEntry)
    (matrix : Option (Int → Int → Nat)) :
    ((headToHeadGroups standings matrix).flatten).Perm standings := by
  unfold headToHeadGroups
  match matrix with
  | none => simp
  | some m =>
    simp only
    split
    · refine join_map_filter_perm _ _ _ ?_ ?_
      · exact ((goSortSlice_perm _ _).nodup_iff).mpr (collectKeys_nodup _)
      · intro x hx
        exact ((goSortSlice_perm _ _).mem_iff).mpr
          (collectKeys_mem (List.mem_map_of_mem _ hx))
    · simp

/-- The recursive sort returns a permutation of its input. -/
theorem sortStandingsFrom_perm :
    ∀ (rest : List String) (standings : List StandingEntry)
      (cm : Option (Int → Option GoVal)) (m : Option (Int → Int → Nat)),
      (sortStandingsFrom standings rest cm m).Perm standings := by
  intro rest
  induction rest with
  | nil => intro s cm m; exact List.Perm.refl _
  | cons cur rest' ih =>
    intro s cm m
    simp only [sortStandingsFrom]
    split
    · exact List.Perm.refl _
    · split
      · exact (flatMap_perm_flatten _ (fun g => ih g cm m) _).trans
          (headToHeadGroups_join_perm s m)
      · exact (flatMap_perm_flatten _ (fun g => ih g cm m) _).trans
          (groupByTiebreaker_join_perm s cur cm)

theorem sortStandingsWithTiebreakers_perm (standings : List StandingEntry)
    (tiebreakOrder : List String) (cm : Option (Int → Option GoVal))
    (m : Option (Int → Int → Nat)) :
    (sortStandingsWithTiebreakers standings tiebreakOrder cm m).Perm
      standings :=
  sortStandingsFrom_perm _ standings cm m

/-! ## Sortedness facts about `goSortSlice` -/

theorem collectKeys_aux_subset {α : Type} [DecidableEq α] :
    ∀ (vals acc : List α) (x : α),
      x ∈ vals.foldl (fun acc v => if v ∈ acc then acc else acc ++ [v]) acc →
      x ∈ vals ∨ x ∈ acc := by
  intro vals
  induction vals with
  | nil => intro acc x h; exact Or.inr h
  | cons v t ih =>
    intro acc x h
    simp only [List.foldl_cons] at h
    rcases ih _ x h with h | h
    · exact Or.inl (List.mem_cons_of_mem v h)
    · by_cases hv : v ∈ acc
      · rw [if_pos hv] at h
        exact Or.inr h
      · rw [if_neg hv] at h
        rcases List.mem_append.mp h with h | h
        · exact Or.inr h
        · simp only [List.mem_singleton] at h
          exact Or.inl (h ▸ List.mem_cons_self v t)

theorem collectKeys_subset {α : Type} [DecidableEq α] {vals : List α}
    {x : α} (h : x ∈ collectKeys vals) : x ∈ vals :=
  (collectKeys_aux_subset vals [] x h).resolve_right (by simp)

theorem goInsertAux_head {α : Type} (less : α → α → Bool) (x : α) :
    ∀ l : List α, (goInsertAux less x l).head? = some x ∨
      ((goInsertAux less x l).head? = l.head? ∧ l ≠ []) := by
  intro l
  match l with
  | [] => exact Or.inl rfl
  | y :: t =>
    simp only [goInsertAux]
    split
    · exact Or.inr ⟨rfl, by simp⟩
    · exact Or.inl rfl

theorem goInsertAux_chain {α : Type} (less : α → α → Bool)
    (R : α → α → Prop) (x : α) :
    ∀ racc : List α, racc.Chain' (fun a b => R b a) →
      (∀ y ∈ racc, (less x y = true → R x y) ∧ (less x y = false → R y x)) →
      (goInsertAux less x racc).Chain' (fun a b => R b a) := by
  intro racc
  induction racc with
  | nil => intro _ _; simp [goInsertAux]
  | cons y t ih =>
    intro hch hcmp
    simp only [goInsertAux]
    split
    · rename_i hxy
      refine List.chain'_cons'.mpr ⟨?_, ?_⟩
      · intro z hz
        rcases goInsertAux_head less x t with hh | ⟨hh, hne⟩
        · rw [hh] at hz
          simp only [Option.mem_def, Option.some.injEq] at hz
          subst hz
          exact (hcmp y (List.mem_cons_self y t)).1 hxy
        · rw [hh] at hz
          exact (List.chain'_cons'.mp hch).1 z hz
      · refine ih (List.chain'_cons'.mp hch).2 ?_
        intro z hz
        exact hcmp z (List.mem_cons_of_mem y hz)
    · rename_i hxy
      refine List.chain'_cons'.mpr ⟨?_, hch⟩
      intro z hz
      simp only [List.head?_cons, Option.mem_def, Option.some.injEq] at hz
      subst hz
      exact (hcmp y (List.mem_cons_self y t)).2 (by simpa using hxy)

theorem goSortFold_chain {α : Type} (less : α → α → Bool)
    (R : α → α → Prop) :
    ∀ (l racc : List α), racc.Chain' (fun a b => R b a) →
      (racc ++ l).Nodup →
      (∀ x ∈ racc ++ l, ∀ y ∈ racc ++ l, x ≠ y →
        (less x y = true → R x y) ∧ (less x y = false → R y x)) →
      (l.foldl (fun racc x => goInsertAux less x racc) racc).Chain'
        (fun a b => R b a) := by
  intro l
  induction l with
  | nil => intro racc h _ _; simpa using h
  | cons x t ih =>
    intro racc hch hnd hcmp
    simp only [List.foldl_cons]
    have hx : x ∈ racc ++ x :: t := by simp
    have hxnotr : x ∉ racc := by
      intro hmem
      have := (List.nodup_append.mp hnd).2.2
      exact (this hmem) (List.mem_cons_self x t)
    have hP : ((goInsertAux less x racc) ++ t).Perm (racc ++ x :: t) := by
      refine ((goInsertAux_perm less x racc).append_right t).trans ?_
      exact List.perm_middle.symm
    refine ih (goInsertAux less x racc) ?_ ?_ ?_
    · refine goInsertAux_chain less R x racc hch ?_
      intro y hy
      have hyin : y ∈ racc ++ x :: t := List.mem_append_left _ hy
      have hne : x ≠ y := fun h => hxnotr (h ▸ hy)
      exact hcmp x hx y hyin hne
    · exact (hP.nodup_iff).mpr hnd
    · intro a ha b hb hab
      exact hcmp a (hP.mem_iff.mp ha) b (hP.mem_iff.mp hb) hab

theorem goSortSlice_chain {α : Type} (less : α → α → Bool)
    (R : α → α → Prop) (l : List α) (hnd : l.Nodup)
    (hcmp : ∀ x ∈ l, ∀ y ∈ l, x ≠ y →
      (less x y = true → R x y) ∧ (less x y = false → R y x)) :
    (goSortSlice less l).Chain' R := by
  unfold goSortSlice
  rw [List.chain'_reverse]
  have h := goSortFold_chain less R l [] (by simp) (by simpa using hnd)
    (by simpa using hcmp)
  exact h

theorem goInsertAux_of_false {α : Type} (less : α → α → Bool) (x : α)
    (l : List α) (h : ∀ y ∈ l, less x y = false) :
    goInsertAux less x l = x :: l := by
  match l with
  | [] => rfl
  | y :: t =>
    simp only [goInsertAux]
    rw [if_neg]
    simp [h y (List.mem_cons_self y t)]

theorem goSortFold_of_false {α : Type} (less : α → α → Bool) :
    ∀ (l racc : List α),
      (∀ x ∈ l, ∀ y ∈ racc, less x y = false) →
      (∀ x ∈ l, ∀ y ∈ l, less x y = false) →
      l.foldl (fun racc x => goInsertAux less x racc) racc =
        l.reverse ++ racc := by
  intro l
  induction l with
  | nil => intro racc _ _; simp
  | cons x t ih =>
    intro racc h1 h2
    simp only [List.foldl_cons]
    rw [goInsertAux_of_false less x racc
      (fun y hy => h1 x (List.mem_cons_self x t) y hy)]
    rw [ih (x :: racc) ?_ ?_]
    · simp
    · intro a ha y hy
      rcases List.mem_cons.mp hy with heq | hy
      · rw [heq]
        exact h2 a (List.mem_cons_of_mem x ha) x (List.mem_cons_self x t)
      · exact h1 a (List.mem_cons_of_mem x ha) y hy
    · intro a ha y hy
      exact h2 a (List.mem_cons_of_mem x ha) y (List.mem_cons_of_mem x hy)

/-- `sort.Slice` with a comparator that never orders any pair of the list
leaves the list unchanged. -/
theorem goSortSlice_of_false {α : Type} (less : α → α → Bool)
    (l : List α) (h : ∀ x ∈ l, ∀ y ∈ l, less x y = false) :
    goSortSlice less l = l := by
  unfold goSortSlice
  rw [goSortFold_of_false less l [] (by simp) h]
  simp

theorem orderedValues_chain_int (standings : List StandingEntry)
    (cm : Option (Int → Option GoVal)) (tb : String)
    (h : ∀ e : StandingEntry, ∃ n, tiebreakValue cm tb e = .int n) :
    (orderedTiebreakValues standings tb cm).Chain' valDesc := by
  unfold orderedTiebreakValues
  refine goSortSlice_chain _ valDesc _ (collectKeys_nodup _) ?_
  intro x hx y hy hxy
  obtain ⟨ex, _, hvx⟩ := List.mem_map.mp (collectKeys_subset hx)
  obtain ⟨ey, _, hvy⟩ := List.mem_map.mp (collectKeys_subset hy)
  obtain ⟨nx, hnx⟩ := h ex
  obtain ⟨ny, hny⟩ := h ey
  have hx' : x = GoVal.int nx := hvx.symm.trans hnx
  have hy' : y = GoVal.int ny := hvy.symm.trans hny
  subst hx' hy'
  have hne : nx ≠ ny := fun h => hxy (by rw [h])
  constructor
  · intro hlt
    have hc : compareValues (GoVal.int nx) (GoVal.int ny) > 0 :=
      of_decide_eq_true hlt
    simp only [valDesc]
    by_contra hgt
    have hle : compareValues (GoVal.int nx) (GoVal.int ny) ≤ 0 := by
      simp only [compareValues, if_neg hgt]
      split <;> omega
    omega
  · intro hlt
    have hc : ¬ compareValues (GoVal.int nx) (GoVal.int ny) > 0 :=
      of_decide_eq_false hlt
    simp only [valDesc]
    by_contra hge
    have h1 : nx > ny := by omega
    have h2 : compareValues (GoVal.int nx) (GoVal.int ny) = 1 := by
      simp [compareValues, h1]
    omega

theorem orderedValues_chain_float (standings : List StandingEntry)
    (cm : Option (Int → Option GoVal)) (tb : String)
    (h : ∀ e : StandingEntry, ∃ q, tiebreakValue cm tb e = .float q) :
    (orderedTiebreakValues standings tb cm).Chain' valDesc := by
  unfold orderedTiebreakValues
  refine goSortSlice_chain _ valDesc _ (collectKeys_nodup _) ?_
  intro x hx y hy hxy
  obtain ⟨ex, _, hvx⟩ := List.mem_map.mp (collectKeys_subset hx)
  obtain ⟨ey, _, hvy⟩ := List.mem_map.mp (collectKeys_subset hy)
  obtain ⟨nx, hnx⟩ := h ex
  obtain ⟨ny, hny⟩ := h ey
  have hx' : x = GoVal.float nx := hvx.symm.trans hnx
  have hy' : y = GoVal.float ny := hvy.symm.trans hny
  subst hx' hy'
  have hne : nx ≠ ny := fun h => hxy (by rw [h])
  constructor
  · intro hlt
    have hc : compareValues (GoVal.float nx) (GoVal.float ny) > 0 :=
      of_decide_eq_true hlt
    simp only [valDesc]
    by_contra hgt
    have hle : compareValues (GoVal.float nx) (GoVal.float ny) ≤ 0 := by
      simp only [compareValues, if_neg hgt]
      split <;> omega
    omega
  · intro hlt
    have hc : ¬ compareValues (GoVal.float nx) (GoVal.float ny) > 0 :=
      of_decide_eq_false hlt
    simp only [valDesc]
    by_contra hge
    have h1 : nx > ny := lt_of_le_of_ne (not_lt.mp hge) (Ne.symm hne)
    have h2 : compareValues (GoVal.float nx) (GoVal.float ny) = 1 := by
      simp [compareValues, h1]
    omega

/-- For the `random` criterion every value is a string, `compareValues`
reports every pair unordered, and the value sort is the identity: the
groups stay in first-appearance order. -/
theorem orderedValues_random (standings : List StandingEntry)
    (cm : Option (Int → Option GoVal)) :
    orderedTiebreakValues standings "random" cm =
      collectKeys (standings.map (tiebreakValue cm "random")) := by
  unfold orderedTiebreakValues
  refine goSortSlice_of_false _ _ ?_
  intro x hx y hy
  obtain ⟨ex, _, hvx⟩ := List.mem_map.mp (collectKeys_subset hx)
  obtain ⟨ey, _, hvy⟩ := List.mem_map.mp (collectKeys_subset hy)
  have hx' : x = GoVal.str ex.RandomTiebreakerID := by
    rw [← hvx]; rfl
  have hy' : y = GoVal.str ey.RandomTiebreakerID := by
    rw [← hvy]; rfl
  subst hx' hy'
  simp [compareValues]

/-- Unfolding the mini-league accumulation loop into the two sums it
computes, for an arbitrary starting record. -/
theorem miniRecord_foldl (matrix : Int → Int → Nat) (a : Int) :
    ∀ (l : List Int) (r : Nat × Nat),
      l.foldl
        (fun r b => if b = a then r
          else (r.1 + matrix a b, r.2 + matrix b a)) r =
      (r.1 + ((l.filter (fun b => b ≠ a)).map (fun b => matrix a b)).sum,
       r.2 + ((l.filter (fun b => b ≠ a)).map (fun b => matrix b a)).sum) := by
  intro l
  induction l with
  | nil => intro r; simp
  | cons b t ih =>
    intro r
    simp only [List.foldl_cons, List.filter_cons]
    by_cases hb : b = a
    · simp [hb, ih]
    · simp [hb, ih, Nat.add_assoc]

/-- `miniRecord` computes exactly the within-group win and loss sums of
the specification: wins are `Σ matrix[a][b]`, losses `Σ matrix[b][a]`,
over the other members `b` of the group. -/
theorem miniRecord_eq_sums (teamIDs : List Int) (matrix : Int → Int → Nat)
    (a : Int) :
    miniRecord teamIDs matrix a =
      (((teamIDs.filter (fun b => b ≠ a)).map (fun b => matrix a b)).sum,
       ((teamIDs.filter (fun b => b ≠ a)).map (fun b => matrix b a)).sum) := by
  unfold miniRecord
  rw [miniRecord_foldl matrix a teamIDs (0, 0)]
  simp

/-- The sorted record keys of the head-to-head partition are in strictly
better-to-worse order: wins descending, ties broken by losses
ascending. -/
theorem orderedMiniRecords_chain (standings : List StandingEntry)
    (matrix : Int → Int → Nat) :
    (orderedMiniRecords standings matrix).Chain' recordDesc := by
  unfold orderedMiniRecords
  refine goSortSlice_chain _ recordDesc _ (collectKeys_nodup _) ?_
  intro x _ y _ hxy
  constructor
  · intro hlt
    unfold recordLess at hlt
    by_cases hw : x.1 = y.1
    · rw [if_neg (by simpa using hw)] at hlt
      exact Or.inr ⟨hw, of_decide_eq_true hlt⟩
    · rw [if_pos (by simpa using hw)] at hlt
      exact Or.inl (of_decide_eq_true hlt)
  · intro hlt
    unfold recordLess at hlt
    by_cases hw : x.1 = y.1
    · rw [if_neg (by simpa using hw)] at hlt
      have hl : ¬ x.2 < y.2 := of_decide_eq_false hlt
      have hne : x.2 ≠ y.2 := by
        intro h
        exact hxy (Prod.ext hw h)
      exact Or.inr ⟨hw.symm, lt_of_le_of_ne (not_lt.mp hl) (Ne.symm hne)⟩
    · rw [if_pos (by simpa using hw)] at hlt
      have hg : ¬ x.1 > y.1 := of_decide_eq_false hlt
      exact Or.inl (lt_of_le_of_ne (not_lt.mp hg) hw)

/-! ## Association-list totals (two-week championship) -/

theorem lookupTotal_map_ne (rid : Int) (pts : ℚ) (r : Int)
    (hne : r ≠ rid) :
    ∀ acc : List (Int × ℚ),
      lookupTotal
        (acc.map (fun p => if p.1 = rid then (p.1, p.2 + pts) else p)) r =
      lookupTotal acc r := by
  intro acc
  induction acc with
  | nil => rfl
  | cons q t ih =>
    by_cases hq : q.1 = rid
    · have hqr : q.1 ≠ r := fun h => hne (h.symm.trans hq)
      have h2 : rid ≠ r := hq ▸ hqr
      simp [lookupTotal, hq, hqr, h2, ih]
    · simp [lookupTotal, hq, ih]

theorem lookupTotal_map_eq (rid : Int) (pts : ℚ) :
    ∀ acc : List (Int × ℚ), acc.any (fun p => p.1 = rid) = true →
      lookupTotal
        (acc.map (fun p => if p.1 = rid then (p.1, p.2 + pts) else p)) rid =
      lookupTotal acc rid + pts := by
  intro acc
  induction acc with
  | nil => intro h; simp at h
  | cons q t ih =>
    intro hany
    by_cases hq : q.1 = rid
    · simp [lookupTotal, hq]
    · have hany2 : t.any (fun p => p.1 = rid) = true := by
        simp only [List.any_cons, Bool.or_eq_true] at hany
        rcases hany with h | h
        · exact absurd (of_decide_eq_true h) hq
        · exact h
      simp [lookupTotal, hq, ih hany2]

theorem lookupTotal_append_new (rid : Int) (pts : ℚ) (r : Int) :
    ∀ acc : List (Int × ℚ), acc.any (fun p => p.1 = rid) = false →
      lookupTotal (acc ++ [(rid, pts)]) r =
      if r = rid then lookupTotal acc r + pts else lookupTotal acc r := by
  intro acc
  induction acc with
  | nil =>
    intro _
    by_cases hr : r = rid
    · simp [lookupTotal, hr]
    · have hr2 : rid ≠ r := fun h => hr h.symm
      simp [lookupTotal, hr, hr2]
  | cons q t ih =>
    intro hany
    simp only [List.any_cons, Bool.or_eq_false_iff] at hany
    have hq : q.1 ≠ rid := by simpa using hany.1
    by_cases hqr : q.1 = r
    · have hrrid : r ≠ rid := fun h => hq (hqr.trans h)
      simp [lookupTotal, hqr, hrrid]
    · simp only [List.cons_append, lookupTotal, if_neg hqr]
      exact ih hany.2

theorem lookupTotal_addPoints (rid : Int) (pts : ℚ) (r : Int)
    (acc : List (Int × ℚ)) :
    lookupTotal (addPoints acc rid pts) r =
      if r = rid then lookupTotal acc r + pts else lookupTotal acc r := by
  unfold addPoints
  split
  · rename_i h
    by_cases hr : r = rid
    · rw [if_pos hr, hr]
      exact lookupTotal_map_eq rid pts acc h
    · rw [lookupTotal_map_ne rid pts r hr acc, if_neg hr]
  · rename_i h
    refine lookupTotal_append_new rid pts r acc ?_
    revert h
    cases acc.any (fun p => p.1 = rid) <;> simp

/-- The championship-totals side of the accumulation loop: for a
semifinal winner `r`, the accumulated total is the sum of `r`\'s weekly
points over all processed matchups. -/
theorem buildTotals_winner_lookup (winners losers : List Int) (r : Int)
    (hr : r ∈ winners) :
    ∀ (ms : List GoMatchup) (acc : List (Int × ℚ) × List (Int × ℚ)),
      lookupTotal
        ((ms.foldl
          (fun acc mu =>
            if mu.RosterID ∈ winners then
              (addPoints acc.1 mu.RosterID mu.Points, acc.2)
            else if mu.RosterID ∈ losers then
              (acc.1, addPoints acc.2 mu.RosterID mu.Points)
            else acc)
          acc).1) r =
      lookupTotal acc.1 r +
        ((ms.filter (fun mu => mu.RosterID = r)).map (·.Points)).sum := by
  intro ms
  induction ms with
  | nil => intro acc; simp
  | cons mu t ih =>
    intro acc
    simp only [List.foldl_cons, List.filter_cons]
    by_cases hmu : mu.RosterID = r
    · subst hmu
      rw [if_pos hr, ih]
      simp [lookupTotal_addPoints]
      ring
    · have hfil : decide (mu.RosterID = r) = false := decide_eq_false hmu
      have hrm : r ≠ mu.RosterID := fun h => hmu h.symm
      simp only [hfil, Bool.false_eq_true, if_false]
      by_cases hin : mu.RosterID ∈ winners
      · rw [if_pos hin, ih]
        simp [lookupTotal_addPoints, hrm]
      · rw [if_neg hin]
        by_cases hlo : mu.RosterID ∈ losers
        · rw [if_pos hlo]
          exact ih _
        · rw [if_neg hlo]
          exact ih _

/-- The third-place-totals side of the accumulation loop: for a
semifinal loser `r` (not also a winner), the accumulated total is the sum
of `r`'s weekly points over all processed matchups. -/
theorem buildTotals_loser_lookup (winners losers : List Int) (r : Int)
    (hrl : r ∈ losers) (hrw : r ∉ winners) :
    ∀ (ms : List GoMatchup) (acc : List (Int × ℚ) × List (Int × ℚ)),
      lookupTotal
        ((ms.foldl
          (fun acc mu =>
            if mu.RosterID ∈ winners then
              (addPoints acc.1 mu.RosterID mu.Points, acc.2)
            else if mu.RosterID ∈ losers then
              (acc.1, addPoints acc.2 mu.RosterID mu.Points)
            else acc)
          acc).2) r =
      lookupTotal acc.2 r +
        ((ms.filter (fun mu => mu.RosterID = r)).map (·.Points)).sum := by
  intro ms
  induction ms with
  | nil => intro acc; simp
  | cons mu t ih =>
    intro acc
    simp only [List.foldl_cons, List.filter_cons]
    by_cases hmu : mu.RosterID = r
    · subst hmu
      rw [if_neg hrw, if_pos hrl, ih]
      simp [lookupTotal_addPoints]
      ring
    · have hfil : decide (mu.RosterID = r) = false := decide_eq_false hmu
      have hrm : r ≠ mu.RosterID := fun h => hmu h.symm
      simp only [hfil, Bool.false_eq_true, if_false]
      by_cases hin : mu.RosterID ∈ winners
      · rw [if_pos hin]
        exact ih _
      · rw [if_neg hin]
        by_cases hlo : mu.RosterID ∈ losers
        · rw [if_pos hlo, ih]
          simp [lookupTotal_addPoints, hrm]
        · rw [if_neg hlo]
          exact ih _

/-- The top-two selection loop, on a two-entry totals map with distinct
positive totals, picks the larger-total roster as champion and the other
as runner-up — in either map-iteration order. -/
theorem champSelect_pair (w1 w2 : Int) (t1 t2 : ℚ) (h12 : t1 > t2)
    (h2 : t2 > 0) :
    champSelect [(w1, t1), (w2, t2)] = ((w1, t1), (w2, t2)) ∧
    champSelect [(w2, t2), (w1, t1)] = ((w1, t1), (w2, t2)) := by
  have h1 : t1 > 0 := lt_trans h2 h12
  constructor
  · simp only [champSelect, List.foldl_cons, List.foldl_nil]
    split_ifs <;> simp_all <;> linarith
  · simp only [champSelect, List.foldl_cons, List.foldl_nil]
    split_ifs <;> simp_all <;> linarith

/-! ## The instructions parse as filter-map -/

/-- With pairwise distinct criterion names none of which is already in
the accumulator, the dedup-append loop of
`parseInstructionsToTiebreakOrder` appends exactly the matching
patterns' names in iteration order. -/
theorem parse_foldl_eq_filter (instr : List Char) :
    ∀ (ps : List TbPattern) (acc : List String),
      (ps.map (·.name)).Nodup → (∀ p ∈ ps, p.name ∉ acc) →
      ps.foldl
        (fun ord p =>
          if matchPattern instr p then
            if p.name ∈ ord then ord else ord ++ [p.name]
          else ord)
        acc =
      acc ++ (ps.filter (fun p => matchPattern instr p)).map (·.name) := by
  intro ps
  induction ps with
  | nil => intro acc _ _; simp
  | cons p t ih =>
    intro acc hnd hacc
    simp only [List.foldl_cons, List.filter_cons]
    by_cases hm : matchPattern instr p
    · rw [if_pos hm]
      rw [if_neg (hacc p (List.mem_cons_self p t))]
      have hnd' : (t.map (·.name)).Nodup :=
        (List.nodup_cons.mp (by simpa using hnd)).2
      have hpn : p.name ∉ t.map (·.name) :=
        (List.nodup_cons.mp (by simpa using hnd)).1
      rw [ih (acc ++ [p.name]) hnd' ?_]
      · simp [hm]
      · intro q hq
        simp only [List.mem_append, List.mem_singleton, not_or]
        refine ⟨hacc q (List.mem_cons_of_mem p hq), ?_⟩
        intro h
        exact hpn (h ▸ List.mem_map_of_mem (·.name) hq)
    · rw [if_neg hm]
      rw [ih acc (List.nodup_cons.mp (by simpa using hnd)).2
        (fun q hq => hacc q (List.mem_cons_of_mem p hq))]
      simp [hm]

/-- The rank-assignment loop writes `n, n+1, ...` into the `Rank`
fields. -/
theorem assignRanksFrom_ranks :
    ∀ (l : List StandingEntry) (n : Int),
      (assignRanksFrom n l).map (·.Rank) =
        (List.range l.length).map (fun i : ℕ => n + (i : Int)) := by
  intro l
  induction l with
  | nil => intro n; simp [assignRanksFrom]
  | cons e t ih =>
    intro n
    have h1 : (assignRanksFrom n (e :: t)).map (·.Rank) =
        n :: (assignRanksFrom (n + 1) t).map (·.Rank) := by
      simp [assignRanksFrom]
    rw [h1, ih (n + 1), List.length_cons, List.range_succ_eq_map,
      List.map_cons, List.map_map]
    refine congrArg₂ List.cons (by simp) (List.map_congr_left ?_)
    intro i _
    simp only [Function.comp_apply, Nat.succ_eq_add_one]
    push_cast
    ring

/-! ## Claims -/

/-- **C1.**  The claim says `calculateFinalStandings` /
`sortFinalStandings` order every validated bracket's outcome champion
first, then runner-up, ..., with regular-season rank breaking ties inside
the `quarterfinal_loss` and `no_playoffs` groups, and the champion always
above the runner-up.  The code does the opposite: `sortFinalStandings`
passes `shouldSwapFinalStandings` — which returns `true` when its first
argument has the *worse* outcome ("Higher priority (worse outcome) should
come later", says its own comment) — directly as the `less` comparator of
`sort.Slice`, so the sorted slice is in worst-to-best order.  On a
two-team league whose champion is the regular-season leader (roster 1),
the final standings rank the runner-up 1 and the champion 2. -/
theorem c1_final_standings_reversed :
    (calculateFinalStandings [finalEntryA, finalEntryB] finalBracketAB).map
      (fun e => (e.RosterID, e.PlayoffOutcome, e.Rank)) =
    [(2, "runner_up", 1), (1, "champion", 2)] := by decide

/-- **C2.**  For every list of standing entries, every tie-break policy,
every custom-metrics map and every head-to-head matrix, the sort returns
a permutation of its input (one entry per team), and the rank-assignment
loop then writes exactly the ranks 1..N in order, so each rank in 1..N is
used by exactly one team. -/
theorem c2_rank_total_order (standings : List StandingEntry)
    (tiebreakOrder : List String) (cm : Option (Int → Option GoVal))
    (m : Option (Int → Int → Nat)) :
    (sortStandingsWithTiebreakers standings tiebreakOrder cm m).Perm
      standings ∧
    (assignRanks (sortStandingsWithTiebreakers standings tiebreakOrder
        cm m)).map (·.Rank) =
      (List.range standings.length).map (fun i : ℕ => (i : Int) + 1) := by
  refine ⟨sortStandingsWithTiebreakers_perm standings tiebreakOrder cm m, ?_⟩
  rw [assignRanks, assignRanksFrom_ranks,
    (sortStandingsWithTiebreakers_perm standings tiebreakOrder cm m).length_eq]
  refine List.map_congr_left ?_
  intro i _
  ring

/-- **C3.**  With the `head_to_head` criterion and complete data, each
team's within-group record is exactly (Σ matrix[a][b], Σ matrix[b][a])
over the other group members `b`; the group is partitioned by these
records with the sub-groups ordered by wins descending then losses
ascending; and on three teams tied on wins where A beat B and C and B
beat C, the policy `[wins, head_to_head]` ranks them A, B, C. -/
theorem c3_head_to_head_mini_league :
    (∀ (teamIDs : List Int) (matrix : Int → Int → Nat) (a : Int),
      miniRecord teamIDs matrix a =
        (((teamIDs.filter (fun b => b ≠ a)).map (fun b => matrix a b)).sum,
         ((teamIDs.filter (fun b => b ≠ a)).map (fun b => matrix b a)).sum)) ∧
    (∀ (standings : List StandingEntry) (matrix : Int → Int → Nat),
      (orderedMiniRecords standings matrix).Chain' recordDesc) ∧
    sortStandingsWithTiebreakers [entC3, entA3, entB3]
      ["wins", "head_to_head"] none (some h2hMatrixABC) =
      [entA3, entB3, entC3] := by
  refine ⟨miniRecord_eq_sums, orderedMiniRecords_chain, ?_⟩
  decide

/-- **C4.**  When some pair of a tied group has no head-to-head result in
either direction, the `head_to_head` criterion is skipped for that group
only: the whole group is handed unchanged to the next criterion of the
policy.  Concretely, for rosters 1 and 3 that never played under the
policy `[wins, head_to_head, points_for]`, the tie is resolved by
`points_for` (roster 3 has 100 > 90), never by an error — the engine is a
total function. -/
theorem c4_incomplete_h2h_falls_through :
    (∀ (standings : List StandingEntry) (tiebreakOrder : List String)
       (tiebreakerIndex : Nat) (cm : Option (Int → Option GoVal))
       (matrix : Int → Int → Nat),
      hasCompleteHeadToHeadData (standings.map (·.RosterID)) matrix =
        false →
      sortByHeadToHeadMiniLeague standings tiebreakOrder tiebreakerIndex
          cm (some matrix) =
        sortStandingsRecursive standings tiebreakOrder
          (tiebreakerIndex + 1) cm (some matrix)) ∧
    sortStandingsWithTiebreakers [entA3, entC3]
      ["wins", "head_to_head", "points_for"] none (some h2hMatrixEmpty) =
      [entC3, entA3] := by
  constructor
  · intro standings tiebreakOrder tiebreakerIndex cm matrix h
    simp [sortByHeadToHeadMiniLeague, headToHeadGroups, h]
  · decide

/-- Closed instance of **C4**: rosters 1 and 3 have incomplete
head-to-head data, and the head-to-head step on their group equals the
plain recursion at the next criterion. -/
theorem c4_incomplete_h2h_falls_through_witness :
    hasCompleteHeadToHeadData
      (([entA3, entC3].map (·.RosterID))) h2hMatrixEmpty = false ∧
    sortByHeadToHeadMiniLeague [entA3, entC3]
        ["wins", "head_to_head", "points_for"] 1 none
        (some h2hMatrixEmpty) =
      sortStandingsRecursive [entA3, entC3]
        ["wins", "head_to_head", "points_for"] 2 none
        (some h2hMatrixEmpty) :=
  ⟨by decide,
   c4_incomplete_h2h_falls_through.1 [entA3, entC3]
     ["wins", "head_to_head", "points_for"] 1 none h2hMatrixEmpty
     (by decide)⟩

/-- **C10.**  The sort is a pure function of its inputs (entries with
their already-assigned random keys, tie-break order, custom metrics and
head-to-head matrix): two calls with equal inputs return equal output
orders.  In the embedding every map iterated during the sort is driven by
a deterministically ordered key slice, so no iteration-order parameter is
needed and determinism is unconditional. -/
theorem c10_rank_deterministic (s1 s2 : List StandingEntry)
    (o1 o2 : List String) (cm1 cm2 : Option (Int → Option GoVal))
    (m1 m2 : Option (Int → Int → Nat))
    (hs : s1 = s2) (ho : o1 = o2) (hcm : cm1 = cm2) (hm : m1 = m2) :
    sortStandingsWithTiebreakers s1 o1 cm1 m1 =
      sortStandingsWithTiebreakers s2 o2 cm2 m2 := by
  subst hs
  subst ho
  subst hcm
  subst hm
  rfl

/-- Closed instance of **C10** at a concrete input. -/
theorem c10_rank_deterministic_witness :
    sortStandingsWithTiebreakers [entA3, entB3] ["wins", "points_for"]
        none none =
      sortStandingsWithTiebreakers [entA3, entB3] ["wins", "points_for"]
        none none :=
  c10_rank_deterministic [entA3, entB3] [entA3, entB3]
    ["wins", "points_for"] ["wins", "points_for"] none none none none
    rfl rfl rfl rfl

/-- **C9, counterexample.**  The claim asserts that sub-groups are
concatenated in descending order of the criterion value for *every*
criterion, including `random`.  But the random keys are strings
(`generateRandomTiebreakerID` returns `"tb_%x"`), and `compareValues`
handles only `int` and `float64`, reporting every pair of strings as
equal — so the key sort never reorders anything.  Sorting two tied teams
whose keys are `"tb_a"` and `"tb_b"`, in that input order, by `random`
leaves `"tb_a"` first even though descending key order requires
`"tb_b"` first. -/
theorem c9_random_key_not_descending_cx :
    sortStandingsWithTiebreakers [entR1, entR2] ["random"] none none =
      [entR1, entR2] ∧
    entR1.RandomTiebreakerID.data < entR2.RandomTiebreakerID.data :=
  ⟨by decide, by decide⟩

/-- **C9, amended.**  Sub-groups are concatenated in strictly descending
value order for the criteria whose values all carry one numeric type —
`wins` (ints), `points_for` and `points_against` (floats, the latter
negated so that lower raw points against is better) — but not for
`random`: its string keys are incomparable to `compareValues`, so the
value sort is the identity and the sub-groups remain in first-appearance
order of their keys rather than descending key order. -/
theorem c9_group_ordering_amended :
    (∀ (standings : List StandingEntry)
       (cm : Option (Int → Option GoVal)),
      (orderedTiebreakValues standings "wins" cm).Chain' valDesc) ∧
    (∀ (standings : List StandingEntry)
       (cm : Option (Int → Option GoVal)),
      (orderedTiebreakValues standings "points_for" cm).Chain' valDesc) ∧
    (∀ (standings : List StandingEntry)
       (cm : Option (Int → Option GoVal)),
      (orderedTiebreakValues standings "points_against" cm).Chain'
        valDesc) ∧
    (∀ (standings : List StandingEntry)
       (cm : Option (Int → Option GoVal)),
      orderedTiebreakValues standings "random" cm =
        collectKeys (standings.map (tiebreakValue cm "random"))) := by
  refine ⟨?_, ?_, ?_, orderedValues_random⟩
  · intro standings cm
    exact orderedValues_chain_int standings cm "wins"
      (fun e => ⟨e.Wins, rfl⟩)
  · intro standings cm
    exact orderedValues_chain_float standings cm "points_for"
      (fun e => ⟨e.PointsFor, rfl⟩)
  · intro standings cm
    exact orderedValues_chain_float standings cm "points_against"
      (fun e => ⟨-e.PointsAgainst, rfl⟩)

/-- **C6, counterexample.**  The claim says the parse yields a list that
starts with `wins` unless disclaimed, followed by the matching criteria,
and that the fallback replaces it only when it is "only wins or nothing".
On `"ignore wins, use h2h"` the disclaimer suppresses `wins`, exactly one
criterion (`head_to_head`) matches, and the claim therefore requires the
result `[head_to_head]`; but the code replaces *any* result of length ≤ 1
with the fallback, so it returns the fallback instead.  (Only one pattern
matches this text, so the result is the same for every map-iteration
order.) -/
theorem c6_disclaimed_wins_fallback_cx :
    parseInstructionsToTiebreakOrder allPatterns "ignore wins, use h2h"
        standardOrder = standardOrder ∧
    standardOrder ≠ ["head_to_head"] :=
  ⟨by decide, by decide⟩

/-- **C6, amended.**  For every order in which Go's map iteration may
visit the five keyword patterns, the parse of an instructions text
lowercases it, prepends `wins` unless the text contains `"not wins"` or
`"ignore wins"`, appends the name of every matching pattern once — in
*map-iteration* order, not in order of first appearance in the text (the
de-duplication is vacuous because the five names are distinct and differ
from `wins`) — and returns the fallback whenever the resulting list has
length at most 1 (only `wins`, nothing, or a single non-`wins`
criterion). -/
theorem c6_parse_instructions_amended (patOrder : List TbPattern)
    (hperm : patOrder.Perm allPatterns) (instructions : String)
    (fallback : List String) :
    parseInstructionsToTiebreakOrder patOrder instructions fallback =
      (let instr := instructions.data.map Char.toLower
       let base :=
         if !containsSub instr "not wins".data &&
            !containsSub instr "ignore wins".data
         then ["wins"] else []
       let parsed :=
         base ++ (patOrder.filter (fun p => matchPattern instr p)).map
           (·.name)
       if parsed.length ≤ 1 then fallback else parsed) := by
  have hnames : (patOrder.map (·.name)).Nodup :=
    ((hperm.map (·.name)).nodup_iff).mpr (by decide)
  have hnw : ∀ p ∈ patOrder, p.name ≠ "wins" := by
    intro p hp
    have hmem : p ∈ allPatterns := hperm.mem_iff.mp hp
    simp only [allPatterns, List.mem_cons, List.mem_singleton,
      List.not_mem_nil, or_false] at hmem
    rcases hmem with rfl | rfl | rfl | rfl | rfl <;> decide
  simp only [parseInstructionsToTiebreakOrder]
  rw [parse_foldl_eq_filter (instructions.data.map Char.toLower) patOrder _
    hnames ?_]
  intro p hp
  split
  · simp [hnw p hp]
  · simp

/-- Closed instance of **C6 (amended)** at the canonical pattern order:
`"use h2h then points for"` parses to
`[wins, head_to_head, points_for]`. -/
theorem c6_parse_instructions_amended_witness :
    parseInstructionsToTiebreakOrder allPatterns
        "use h2h then points for" standardOrder =
      ["wins", "head_to_head", "points_for"] :=
  (c6_parse_instructions_amended allPatterns (List.Perm.refl _)
    "use h2h then points for" standardOrder).trans (by decide)

/-- **C5, counterexample.**  The claim says a caller-supplied non-empty
explicit `tiebreak_order` is always the order applied, taking precedence
over the per-league stored configuration including its instructions text.
But the handler applies stored instructions (when the caller supplied
none) by *parsing them over the resolved order as fallback*, so a stored
instructions text that parses to two or more criteria replaces the
caller's explicit order: with caller order `[points_for]` and stored
instructions `"use h2h"`, the applied order is
`[wins, head_to_head]`. -/
theorem c5_caller_order_overridden_cx :
    resolveEffectiveTiebreakOrder allPatterns ["points_for"] "" true
        "use h2h" [] (some 0) = ["wins", "head_to_head"] ∧
    (["wins", "head_to_head"] : List String) ≠ ["points_for"] :=
  ⟨by decide, by decide⟩

/-- **C5, amended.**  Ignoring instructions, the precedence is as
claimed: a non-empty caller order wins over the stored order, which wins
over the seed-type default, which wins over the global default
`[wins, points_for, points_against]`.  But instructions come last, not
first: a non-empty caller instructions text — or, when the caller
supplies none, a non-empty stored instructions text — is parsed with the
otherwise-resolved order as fallback, so instructions that parse to two
or more criteria override even a caller-supplied explicit order; the
caller's exact order is applied only when no instructions text is in
effect (or the parse falls back to it). -/
theorem c5_policy_precedence_amended (patOrder : List TbPattern)
    (callerOrder : List String) (callerInstructions : String)
    (hasCustomStandings : Bool) (storedInstructions : String)
    (storedOrder : List String) (seedType : Option Int) :
    (callerInstructions = "" →
      (hasCustomStandings = false ∨ storedInstructions = "") →
      callerOrder ≠ [] →
      resolveEffectiveTiebreakOrder patOrder callerOrder
          callerInstructions hasCustomStandings storedInstructions
          storedOrder seedType = callerOrder) ∧
    (callerInstructions ≠ "" →
      resolveEffectiveTiebreakOrder patOrder callerOrder
          callerInstructions hasCustomStandings storedInstructions
          storedOrder seedType =
        parseInstructionsToTiebreakOrder patOrder callerInstructions
          (getTiebreakOrder
            (if hasCustomStandings = true ∧ callerOrder = [] ∧
                storedOrder ≠ [] then storedOrder else callerOrder)
            seedType)) ∧
    (callerInstructions = "" → hasCustomStandings = true →
      storedInstructions ≠ "" →
      resolveEffectiveTiebreakOrder patOrder callerOrder
          callerInstructions hasCustomStandings storedInstructions
          storedOrder seedType =
        parseInstructionsToTiebreakOrder patOrder storedInstructions
          (getTiebreakOrder
            (if hasCustomStandings = true ∧ callerOrder = [] ∧
                storedOrder ≠ [] then storedOrder else callerOrder)
            seedType)) ∧
    (callerInstructions = "" →
      (hasCustomStandings = false ∨ storedInstructions = "") →
      callerOrder = [] → hasCustomStandings = true → storedOrder ≠ [] →
      resolveEffectiveTiebreakOrder patOrder callerOrder
          callerInstructions hasCustomStandings storedInstructions
          storedOrder seedType = storedOrder) ∧
    (getTiebreakOrder [] none = ["wins", "points_for", "points_against"] ∧
     getTiebreakOrder [] (some 0) =
       ["wins", "points_for", "points_against"] ∧
     getTiebreakOrder [] (some 1) = ["wins", "points_for"] ∧
     getTiebreakOrder [] (some 2) =
       ["wins", "head_to_head", "points_for", "points_against"]) := by
  refine ⟨?_, ?_, ?_, ?_, by decide, by decide, by decide, by decide⟩
  · intro hci hnc hco
    subst hci
    simp only [resolveEffectiveTiebreakOrder]
    have h2 : ¬ (hasCustomStandings = true ∧ callerOrder = [] ∧
        storedOrder ≠ []) := fun h => hco h.2.1
    rcases hnc with h | h
    · subst h
      simp [getTiebreakOrder, hco]
    · subst h
      simp [h2, getTiebreakOrder, hco]
  · intro hci
    simp only [resolveEffectiveTiebreakOrder]
    have hi : ¬ (hasCustomStandings = true ∧ callerInstructions = "" ∧
        storedInstructions ≠ "") := fun h => hci h.2.1
    rw [if_neg hi, if_pos hci]
  · intro hci hcs hsi
    subst hci
    subst hcs
    simp [resolveEffectiveTiebreakOrder, hsi]
  · intro hci hnc hco hcs hso
    rcases hnc with h | hsi
    · rw [hcs] at h
      exact absurd h (by simp)
    · subst hci
      subst hcs
      subst hsi
      subst hco
      simp [resolveEffectiveTiebreakOrder, hso, getTiebreakOrder]

/-- Closed instance of **C5 (amended)**, first conjunct: with no
instructions anywhere, the caller's explicit order is applied exactly. -/
theorem c5_policy_precedence_amended_witness :
    resolveEffectiveTiebreakOrder allPatterns ["points_for"] "" false ""
        [] (some 0) = ["points_for"] :=
  (c5_policy_precedence_amended allPatterns ["points_for"] "" false ""
    [] (some 0)).1 rfl (Or.inl rfl) (by decide)

/-- **C7.**  In the two-week aggregate championship format each
semifinal winner's championship score is the sum of its weekly points
over the two championship weeks (first conjunct; the analogous sum holds
for the semifinal losers' third-place totals, second conjunct), and with
two winners holding distinct positive aggregates the larger-aggregate
team is recorded as champion and the other as runner-up, the analogous
comparison of the two losers deciding third and fourth place — for
either order in which Go's map iteration visits the two totals maps
(third conjunct). -/
theorem c7_two_week_aggregate_championship :
    (∀ (winners losers : List Int) (r : Int), r ∈ winners →
      ∀ ms : List GoMatchup,
        lookupTotal (buildTotals winners losers ms).1 r =
          ((ms.filter (fun mu => mu.RosterID = r)).map (·.Points)).sum) ∧
    (∀ (winners losers : List Int) (r : Int), r ∈ losers →
      r ∉ winners →
      ∀ ms : List GoMatchup,
        lookupTotal (buildTotals winners losers ms).2 r =
          ((ms.filter (fun mu => mu.RosterID = r)).map (·.Points)).sum) ∧
    (∀ (bracket : PlayoffBracket) (sf1 sf2 : PlayoffMatchup)
       (wk17 wk18 : List GoMatchup)
       (champIter thirdIter : List (Int × ℚ))
       (w1 w2 l1 l2 : Int) (t1 t2 u1 u2 : ℚ),
      bracket.SemiFinals = [sf1, sf2] →
      (buildTotals [sf1.Winner, sf2.Winner] [sf1.Loser, sf2.Loser]
        (wk17 ++ wk18)).1 = [(w1, t1), (w2, t2)] →
      (buildTotals [sf1.Winner, sf2.Winner] [sf1.Loser, sf2.Loser]
        (wk17 ++ wk18)).2 = [(l1, u1), (l2, u2)] →
      (champIter = [(w1, t1), (w2, t2)] ∨
        champIter = [(w2, t2), (w1, t1)]) →
      (thirdIter = [(l1, u1), (l2, u2)] ∨
        thirdIter = [(l2, u2), (l1, u1)]) →
      w1 ≠ 0 → w2 ≠ 0 → l1 ≠ 0 → l2 ≠ 0 →
      t1 > t2 → t2 > 0 → u1 > u2 → u2 > 0 →
      processTwoWeekChampionship bracket (some wk17) (some wk18)
          champIter thirdIter =
        Except.ok { bracket with
          Championship :=
            some ⟨17, 1, w1, w2, t1, t2, w1, w2, "championship"⟩,
          ThirdPlace :=
            some ⟨17, 2, l1, l2, u1, u2, l1, l2, "third_place"⟩,
          HasThirdPlace := true }) := by
  refine ⟨?_, ?_, ?_⟩
  · intro winners losers r hr ms
    have h := buildTotals_winner_lookup winners losers r hr ms ([], [])
    simpa [buildTotals, lookupTotal] using h
  · intro winners losers r hrl hrw ms
    have h := buildTotals_loser_lookup winners losers r hrl hrw ms ([], [])
    simpa [buildTotals, lookupTotal] using h
  · intro bracket sf1 sf2 wk17 wk18 champIter thirdIter w1 w2 l1 l2
      t1 t2 u1 u2 hsf _ _ hiter1 hiter2 hw1 hw2 hl1 hl2 ht12 ht2 hu12 hu2
    have hcs : champSelect champIter = ((w1, t1), (w2, t2)) := by
      rcases hiter1 with rfl | rfl
      · exact (champSelect_pair w1 w2 t1 t2 ht12 ht2).1
      · exact (champSelect_pair w1 w2 t1 t2 ht12 ht2).2
    have hts : champSelect thirdIter = ((l1, u1), (l2, u2)) := by
      rcases hiter2 with rfl | rfl
      · exact (champSelect_pair l1 l2 u1 u2 hu12 hu2).1
      · exact (champSelect_pair l1 l2 u1 u2 hu12 hu2).2
    unfold processTwoWeekChampionship
    rw [hsf]
    rw [if_neg (by simp)]
    simp only [List.map_cons, List.map_nil, List.length_cons,
      List.length_nil]
    rw [if_neg (by simp), if_neg (by simp)]
    simp only [hcs, hts]
    rw [if_neg (by simp [hw1, hw2]), if_neg (by simp [hl1, hl2])]

/-- Closed instance of **C7**: with weekly scores team 1 `[50, 60]` and
team 2 `[55, 40]`, the aggregates are 110 and 95 and team 1 wins the
championship (team 3 beats team 4, 55 to 30, for third place). -/
theorem c7_two_week_aggregate_championship_witness :
    processTwoWeekChampionship twoWeekBracket (some week17Matchups)
        (some week18Matchups) [(1, 110), (2, 95)] [(3, 55), (4, 30)] =
      Except.ok { twoWeekBracket with
        Championship :=
          some ⟨17, 1, 1, 2, 110, 95, 1, 2, "championship"⟩,
        ThirdPlace := some ⟨17, 2, 3, 4, 55, 30, 3, 4, "third_place"⟩,
        HasThirdPlace := true } := by
  have hb1 : (buildTotals [(sfGame 1 3).Winner, (sfGame 2 4).Winner]
      [(sfGame 1 3).Loser, (sfGame 2 4).Loser]
      (week17Matchups ++ week18Matchups)).1 = [(1, 110), (2, 95)] := by
    norm_num [buildTotals, addPoints, week17Matchups, week18Matchups,
      sfGame]
  have hb2 : (buildTotals [(sfGame 1 3).Winner, (sfGame 2 4).Winner]
      [(sfGame 1 3).Loser, (sfGame 2 4).Loser]
      (week17Matchups ++ week18Matchups)).2 = [(3, 55), (4, 30)] := by
    norm_num [buildTotals, addPoints, week17Matchups, week18Matchups,
      sfGame]
  exact c7_two_week_aggregate_championship.2.2 twoWeekBracket
    (sfGame 1 3) (sfGame 2 4) week17Matchups week18Matchups
    [(1, 110), (2, 95)] [(3, 55), (4, 30)] 1 2 3 4 110 95 55 30 rfl
    hb1 hb2 (Or.inl rfl) (Or.inl rfl) (by decide) (by decide)
    (by decide) (by decide) (by decide) (by decide) (by decide)
    (by decide)

/-- **C8, counterexample.**  The claim says validation accepts a bracket
only if (among the other conditions) a third-place game is present *iff*
`has_third_place`.  `acceptedExtraThirdBracket` carries a third-place
game while `HasThirdPlace` is `false`, yet `validatePlayoffBracket`
accepts it: the code only rejects a *missing* third-place game when the
flag is set, never a present one when it is not.  (The claimed
"league's configured number of playoff teams" is also not what is
checked — the count is compared against a hardcoded 6; see the amended
theorem, whose characterization mentions no league configuration.) -/
theorem c8_validation_accepts_extra_third_place_cx :
    validatePlayoffBracket acceptedExtraThirdBracket = none ∧
    acceptedExtraThirdBracket.ThirdPlace ≠ none ∧
    acceptedExtraThirdBracket.HasThirdPlace = false :=
  ⟨by decide, by decide, by decide⟩

/-- **C8, amended.**  `validatePlayoffBracket` accepts a bracket iff it
seeds exactly 6 playoff teams (a hardcoded count, independent of the
league's configured playoff-team setting), has at least 2 quarterfinal
games, at least 2 semifinal games, a championship game, a third-place
game whenever `has_third_place` is set (a present third-place game with
the flag unset is not rejected), and — unless the two-week format
(championship week 17 with `has_third_place`) is detected — championship
participants equal to the two semifinal winners.  On any validation
error, and on any bracket-processing error, final-mode computation
returns the regular-season standings unchanged. -/
theorem c8_bracket_validation_amended :
    (∀ bracket : PlayoffBracket,
      validatePlayoffBracket bracket = none ↔
        (bracket.PlayoffTeams.length = 6 ∧
         2 ≤ bracket.QuarterFinals.length ∧
         2 ≤ bracket.SemiFinals.length ∧
         bracket.Championship ≠ none ∧
         (bracket.HasThirdPlace = true → bracket.ThirdPlace ≠ none) ∧
         ((bracket.ChampionshipWeek ≠ 17 ∨
            bracket.HasThirdPlace = false) →
           champParticipantsOk bracket = true))) ∧
    (∀ (regular : List StandingEntry) (bracket : PlayoffBracket),
      validatePlayoffBracket bracket ≠ none →
      finalModeStandings regular (Except.ok bracket) = regular) ∧
    (∀ (regular : List StandingEntry) (msg : String),
      finalModeStandings regular (Except.error msg) = regular) := by
  refine ⟨?_, ?_, fun _ _ => rfl⟩
  · intro bracket
    rcases hch : bracket.Championship with _ | c
    · constructor
      · intro hv
        exfalso
        revert hv
        unfold validatePlayoffBracket
        rw [hch]
        split_ifs <;> simp
      · intro hconj
        exact absurd hch (by simpa [hch] using hconj.2.2.2.1)
    · simp only [validatePlayoffBracket, champParticipantsOk, hch]
      split_ifs with h1 h2 h3 h4 h5 h6
      · simp only [reduceCtorEq, false_iff, not_and]
        intro hlen
        exact absurd hlen h1
      · simp only [reduceCtorEq, false_iff, not_and]
        intro _ hqf
        omega
      · simp only [reduceCtorEq, false_iff, not_and]
        intro _ _ hsf
        omega
      · simp only [reduceCtorEq, false_iff, not_and]
        intro _ _ _ _ hthird _
        exact (hthird h4.2) h4.1
      · constructor
        · intro _
          refine ⟨by omega, by omega, by omega, by simp, ?_, fun _ => h6⟩
          intro htp
          intro hnone
          exact h4 ⟨hnone, htp⟩
        · intro _
          rfl
      · simp only [reduceCtorEq, false_iff, not_and]
        intro _ _ _ _ _ hok
        have h5' : bracket.ChampionshipWeek ≠ 17 ∨
            bracket.HasThirdPlace = false := by
          rcases h5 with h | h
          · exact Or.inl h
          · exact Or.inr (by simpa using h)
        exact h6 (hok h5')
      · constructor
        · intro _
          refine ⟨by omega, by omega, by omega, by simp, ?_, ?_⟩
          · intro htp hnone
            exact h4 ⟨hnone, htp⟩
          · intro hx
            exfalso
            rcases hx with h | h
            · exact h5 (Or.inl h)
            · exact h5 (Or.inr (by simp [h]))
        · intro _
          rfl
  · intro regular bracket hv
    rcases h : validatePlayoffBracket bracket with _ | msg
    · exact absurd h hv
    · simp [finalModeStandings, h]

/-- Closed instance of **C8 (amended)**: a bracket seeding only two
teams fails validation, and final mode then returns the regular-season
standings unchanged. -/
theorem c8_bracket_validation_amended_witness :
    validatePlayoffBracket incompleteBracket ≠ none ∧
    finalModeStandings [entA3] (Except.ok incompleteBracket) = [entA3] :=
  ⟨by decide,
   c8_bracket_validation_amended.2.1 [entA3] incompleteBracket
     (by decide)⟩

end SleeperStandings
